import Mathlib

/-!
Verification of the PDF-translation pipeline of `server/routes/translate-pdf.ts`
(builder-PDF-TranslateAPI).

The handler and its two helper functions (`splitTextIntoChunks`, `wrapText`)
are shallowly embedded here.  JavaScript strings are modelled as `List Char`
(all strings that occur in this code are ASCII, so `.length` agrees with the
UTF-16 length used by JavaScript), and the two external capabilities — the
`pdf-lib` loader and the DeepL translator — are modelled as function-valued
oracles supplied to the handler.

The vertical layout cursor of the page-drawing loop works with the decimal
constants 841.89, 595.28, 50, 12, 4, 20 and only ever adds, subtracts and
compares them; it is modelled in hundredths of a PDF point (exact integers),
so 841.89 becomes 84189.  At these magnitudes the float64 arithmetic of the
source and exact decimal arithmetic agree on every comparison performed.
-/

set_option maxRecDepth 500000

namespace PdfTranslate

/-- JavaScript whitespace (`\s` of the regexes and `String.prototype.trim`),
restricted to the characters that can occur in this pipeline's ASCII data. -/
def isWS (c : Char) : Bool :=
  c = ' ' || c = '\n' || c = '\t' || c = '\r' || c = '\x0b' || c = '\x0c'

/-- `String.prototype.trim`: remove leading and trailing whitespace. -/
def trim (l : List Char) : List Char :=
  List.dropWhile isWS ((List.dropWhile isWS l.reverse).reverse)

/-- The non-whitespace characters of a string, in order.  Used to state
"segmentation preserves every non-whitespace character". -/
def strip (l : List Char) : List Char :=
  l.filter (fun c => !isWS c)

/-- `String.prototype.split` with a two-character separator `[a, b]`
(the source splits on `"\n\n"` and on `". "`): leftmost, non-overlapping
occurrences; an empty input yields `[[]]`, exactly as in JavaScript. -/
def splitOn2 (a b : Char) : List Char → List (List Char)
  | [] => [[]]
  | [c] => [[c]]
  | c :: d :: rest =>
    if c = a ∧ d = b then
      [] :: splitOn2 a b rest
    else
      let r := splitOn2 a b (d :: rest)
      (c :: r.headD []) :: r.tail

/-- `String.prototype.split` with a one-character separator (the source
splits on `" "` in `wrapText`). -/
def splitOnChar (sep : Char) : List Char → List (List Char)
  | [] => [[]]
  | c :: cs =>
    if c = sep then
      [] :: splitOnChar sep cs
    else
      let r := splitOnChar sep cs
      (c :: r.headD []) :: r.tail

/-- `Array.prototype.join(sep)` / the inverse of splitting: concatenate the
pieces with `sep` between consecutive pieces. -/
def joinSep (sep : List Char) : List (List Char) → List Char
  | [] => []
  | [x] => x
  | x :: xs => x ++ sep ++ joinSep sep xs

/-- Worker for `squashWS`; the flag records whether we are inside a
whitespace run whose replacement space has already been emitted. -/
def squashWSAux : Bool → List Char → List Char
  | _, [] => []
  | inRun, c :: cs =>
    if isWS c then
      if inRun then squashWSAux true cs else ' ' :: squashWSAux true cs
    else
      c :: squashWSAux false cs

/-- `s.replace(/\s+/g, " ")`: every maximal whitespace run becomes a single
space. -/
def squashWS (l : List Char) : List Char :=
  squashWSAux false l

/-- The paragraph separator `"\n\n"` of `splitTextIntoChunks`. -/
def pSep : List Char := ['\n', '\n']

/-- The sentence separator `". "` of `splitTextIntoChunks`. -/
def sSep : List Char := ['.', ' ']

/-- One iteration of the sentence loop of `splitTextIntoChunks`
(`translate-pdf.ts` lines 208–219).  State is `(chunks, currentChunk)`. -/
def sentenceStep (maxChunkSize : Nat) (st : List (List Char) × List Char)
    (sentence : List Char) : List (List Char) × List Char :=
  if st.2.length + sentence.length > maxChunkSize then
    if st.2.length > 0 then
      (st.1 ++ [trim st.2], sentence ++ sSep)
    else
      (st.1 ++ [sentence], st.2)
  else
    (st.1, st.2 ++ sentence ++ sSep)

/-- One iteration of the paragraph loop of `splitTextIntoChunks`
(`translate-pdf.ts` lines 200–224). -/
def paragraphStep (maxChunkSize : Nat) (st : List (List Char) × List Char)
    (paragraph : List Char) : List (List Char) × List Char :=
  if st.2.length + paragraph.length > maxChunkSize then
    if st.2.length > 0 then
      (st.1 ++ [trim st.2], paragraph)
    else
      (splitOn2 '.' ' ' paragraph).foldl (sentenceStep maxChunkSize) st
  else
    (st.1, st.2 ++ paragraph ++ pSep)

/-- `splitTextIntoChunks(text, maxChunkSize)` (`translate-pdf.ts`
lines 194–231). -/
def splitTextIntoChunks (text : List Char) (maxChunkSize : Nat) :
    List (List Char) :=
  let st := (splitOn2 '\n' '\n' text).foldl (paragraphStep maxChunkSize) ([], [])
  if st.2.length > 0 then st.1 ++ [trim st.2] else st.1

/-- `maxCharsPerLine = Math.floor(maxWidth / (fontSize * 0.6))` of `wrapText`
(`translate-pdf.ts` lines 240–241).  The float arithmetic of the source is
modelled exactly over `ℚ` (`0.6` denotes `3/5`). -/
def maxCharsPerLine (maxWidth fontSize : ℚ) : Int :=
  ⌊maxWidth / (fontSize * 0.6)⌋

/-- One iteration of the word loop of `wrapText` (`translate-pdf.ts`
lines 243–254).  State is `(lines, currentLine)`. -/
def wrapStep (maxChars : Int) (st : List (List Char) × List Char)
    (word : List Char) : List (List Char) × List Char :=
  if ((st.2 ++ word).length : Int) > maxChars then
    if st.2.length > 0 then
      (st.1 ++ [trim st.2], word ++ [' '])
    else
      (st.1 ++ [word], st.2)
  else
    (st.1, st.2 ++ word ++ [' '])

/-- The word-wrapping loop of `wrapText` for a given character budget. -/
def wrapLines (text : List Char) (maxChars : Int) : List (List Char) :=
  let st := (splitOnChar ' ' text).foldl (wrapStep maxChars) ([], [])
  if st.2.length > 0 then st.1 ++ [trim st.2] else st.1

/-- `wrapText(text, maxWidth, fontSize)` (`translate-pdf.ts` lines 234–261). -/
def wrapText (text : List Char) (maxWidth fontSize : ℚ) : List (List Char) :=
  wrapLines text (maxCharsPerLine maxWidth fontSize)

/-- Page height 841.89 pt in hundredths of a point. -/
def pageHeightH : Int := 84189

/-- Margin 50 pt in hundredths of a point. -/
def marginH : Int := 5000

/-- Font size 12 pt in hundredths of a point. -/
def fontSizeH : Int := 1200

/-- The drawing state of the page-filling loop (`translate-pdf.ts`
lines 136–158): the lines drawn so far on the page created before the loop
(`page`, which the source never reassigns), the overflow pages created inside
the loop together with the lines drawn on each, and the vertical cursor
`yPosition` in hundredths of a point. -/
structure LayoutState where
  firstPage : List (List Char)
  overflowPages : List (List (List Char))
  yPos : Int
deriving DecidableEq

/-- One iteration of the page-filling loop (`translate-pdf.ts` lines
138–158).  On overflow (`yPosition < margin + 20`) a new page is allocated,
the cursor is reset to `height - margin` and the line is drawn on the new
page; otherwise the line is drawn on `page` — the first page, since the
source never updates which page the non-overflow branch targets.  Afterwards
the cursor advances by `fontSize + 4`. -/
def drawStep (st : LayoutState) (line : List Char) : LayoutState :=
  let st' : LayoutState :=
    if st.yPos < marginH + 2000 then
      { firstPage := st.firstPage
        overflowPages := st.overflowPages ++ [[line]]
        yPos := pageHeightH - marginH }
    else
      { firstPage := st.firstPage ++ [line]
        overflowPages := st.overflowPages
        yPos := st.yPos }
  { st' with yPos := st'.yPos - (fontSizeH + 400) }

/-- The whole page-filling loop: the cursor starts at
`height - margin - 40` (`translate-pdf.ts` line 136). -/
def paginate (lines : List (List Char)) : LayoutState :=
  lines.foldl drawStep
    { firstPage := [], overflowPages := [], yPos := pageHeightH - marginH - 4000 }

/-- The pages of the produced document, in order: the page created before the
loop followed by the overflow pages.  (The header and the footer, drawn on the
first page outside the loop, are not body lines and are not modelled.) -/
def LayoutState.pages (st : LayoutState) : List (List (List Char)) :=
  st.firstPage :: st.overflowPages

/-- Result of `PDFDocument.load` as the handler observes it: the page count
on success, or a thrown parse error. -/
inductive LoadResult where
  | ok (pageCount : Nat)
  | fail
deriving DecidableEq

/-- The handler's response: a JSON error body
`{ success: ..., error: ... }` with an HTTP status, or a generated PDF whose
body lines are laid out by the page-filling loop. -/
inductive Response where
  | json (status : Nat) (success : Bool) (error : String)
  | pdf (layout : LayoutState)
deriving DecidableEq

/-- Discriminator: did the handler respond with PDF bytes? -/
def Response.isPdf : Response → Bool
  | .pdf _ => true
  | _ => false

/-- The hardcoded text the handler uses whenever `PDFDocument.load`
succeeds (`translate-pdf.ts` lines 44–60) — no text is ever extracted from
the uploaded bytes. -/
def ndaText : String :=
  "Confidentiality and Non-Disclosure Agreement\n\nDuring your discussions and mentorship with Chris Macman, you may learn of proprietary information about Adobe Systems India Private Limited, its business, or clients, or similar information of its subsidiaries or affiliates (collectively \"Adobe\" and this information, \"Confidential Information\"). This Confidential Information may be present in many forms, for example, in slide decks or presentations, in emails, or shared with you orally. It may involve Adobe\x27s business plans, strategy, financial information, or any other information which a person exercising reasonable sense would deem to be confidential or proprietary. Confidential Information does not include information that is publicly available outside of your mentorship (unless due to your own actions). When in doubt about anything you receive in your mentorship, you should assume it is Confidential Information unless Chris tells you otherwise.\n\nFor any Confidential Information you receive under your mentorship, you agree, as a condition of receiving this mentorship, not to share it with or disclose it to anyone. This includes any final presentations or other publications you make as part of your mentorship. With the understanding that you will need to make a presentation as part of this mentorship, it is your responsibility to work with Chris to determine that your presentation and anything you otherwise plan to share will not contain any Confidential Information.\n\nAt the end of your mentorship, you agree to return any and all Confidential Information you\x27ve received or to otherwise delete or destroy the same. (If you have followed the guidance in this agreement, then your final presentations should not contain any Confidential Information, and therefore this requirement would not apply to your presentation.)\n\nI agree to the above:\n\nSignature:\n\nPrinted Name:\n\nDate:\n\nYour associated educational institution/university:"

/-- The hardcoded fallback the handler substitutes when `PDFDocument.load`
throws (`translate-pdf.ts` lines 67–77). -/
def fallbackText : String :=
  "Sample PDF Document Content\n\nThis is a professional document that requires translation to French. The document contains important information that needs to be accurately translated while preserving the original formatting and structure.\n\nKey features of this translation service:\n- Professional document translation\n- Layout and formatting preservation\n- Support for multiple languages\n- High-quality AI-powered translation\n\nThank you for using our PDF translation service."

/-- Error body of the empty-request branch (`translate-pdf.ts` line 14). -/
def noPdfMsg : String := "No PDF data provided in request body"

/-- Error body of the missing-credential branch (line 22). -/
def noKeyMsg : String := "DeepL API key not configured"

/-- Error body of the unreadable-text branch (lines 91–92). -/
def extractionErrorMsg : String :=
  "Could not extract readable text from the PDF. Please ensure the PDF contains selectable text (not just images)."

/-- Error body of the failed-translation branch (line 109). -/
def translationFailedMsg : String := "Translation failed"

/-- `page.getSize().width` of the A4 page, 595.28 pt. -/
def a4Width : ℚ := 595.28

/-- `margin = 50` of the layout section. -/
def marginQ : ℚ := 50

/-- `fontSize = 12` of the layout section. -/
def fontSizeQ : ℚ := 12

/-- The value of `extractedText` right after the `try`/`catch` block
(`translate-pdf.ts` lines 34–78): one of the two hardcoded constants,
chosen only by whether `PDFDocument.load` succeeded on the uploaded bytes. -/
def extractedTextRaw (load : List Nat → LoadResult) (body : List Nat) :
    List Char :=
  match load body with
  | LoadResult.ok _ => ndaText.toList
  | LoadResult.fail => fallbackText.toList

/-- The cleaned-up `extractedText` (`translate-pdf.ts` lines 81–85):
`replace(/\s+/g, " ").trim()`, applied only when the string is truthy. -/
def extractedText (load : List Nat → LoadResult) (body : List Nat) :
    List Char :=
  if extractedTextRaw load body ≠ [] then
    trim (squashWS (extractedTextRaw load body))
  else
    extractedTextRaw load body

/-- The sequence of texts the handler passes to the translation client:
`splitTextIntoChunks(extractedText, 5000)` (`translate-pdf.ts` line 97). -/
def textsSent (load : List Nat → LoadResult) (body : List Nat) :
    List (List Char) :=
  splitTextIntoChunks (extractedText load body) 5000

/-- The per-chunk translation loop (`translate-pdf.ts` lines 100–112): call
the translator on each chunk in order, accumulate the results, and return the
error response at the first failing call. -/
def translateChunks (tr : List Char → Except Unit (List Char)) :
    List (List Char) → Except Unit (List (List Char))
  | [] => Except.ok []
  | c :: cs =>
    match tr c with
    | Except.error e => Except.error e
    | Except.ok t =>
      match translateChunks tr cs with
      | Except.error e => Except.error e
      | Except.ok ts => Except.ok (t :: ts)

/-- `handleTranslatePdf` (`translate-pdf.ts` lines 6–191).  `body` is the
request body (`none` when absent), `apiKey` is `process.env.DEEPL_API_KEY`
(`none` when unset; the empty string is falsy in JavaScript, hence the
`some []` case), and `load`/`tr` are the `pdf-lib` and DeepL oracles.
`translatedChunks.join("\n\n")` is wrapped and paginated into the response.
The `Date.now()` bookkeeping, logging, headers and the header/footer text
drawn outside the line loop have no effect on the modelled observables. -/
def handleTranslatePdf (body : Option (List Nat)) (apiKey : Option (List Char))
    (load : List Nat → LoadResult) (tr : List Char → Except Unit (List Char)) :
    Response :=
  if body = none ∨ body = some [] then
    Response.json 400 false noPdfMsg
  else if apiKey = none ∨ apiKey = some [] then
    Response.json 500 false noKeyMsg
  else if extractedText load (body.getD []) = [] ∨
      (extractedText load (body.getD [])).length < 20 then
    Response.json 400 false extractionErrorMsg
  else
    match translateChunks tr (textsSent load (body.getD [])) with
    | Except.error _ => Response.json 500 false translationFailedMsg
    | Except.ok translatedChunks =>
      Response.pdf
        (paginate (wrapText (joinSep pSep translatedChunks)
          (a4Width - 2 * marginQ) fontSizeQ))

/-- A loader oracle for which every byte buffer parses (with one page). -/
def loadAlwaysOk : List Nat → LoadResult := fun _ => LoadResult.ok 1

/-- A loader oracle for which every byte buffer fails to parse. -/
def loadAlwaysFail : List Nat → LoadResult := fun _ => LoadResult.fail

/-- A translator oracle that succeeds on every segment (identity). -/
def trId : List Char → Except Unit (List Char) := fun c => Except.ok c

/-- A translator oracle that fails on every segment. -/
def trFail : List Char → Except Unit (List Char) := fun _ => Except.error ()

/-- The paragraphs of a text, as `splitTextIntoChunks` computes them
(`text.split("\n\n")`). -/
def paras (text : List Char) : List (List Char) :=
  splitOn2 '\n' '\n' text

/-- The sentences of a paragraph, as the oversized-paragraph fallback of
`splitTextIntoChunks` computes them (`paragraph.split(". ")`). -/
def sents (p : List Char) : List (List Char) :=
  splitOn2 '.' ' ' p

/-- The segments that may legitimately stand alone regardless of size: a
single (trimmed) paragraph of the input, or a single sentence of one of its
paragraphs — emitted either verbatim or with the separator `". "` re-appended
and the result trimmed, which is how `splitTextIntoChunks` flushes a buffer
holding one sentence. -/
def chunkException (text c : List Char) : Prop :=
  (∃ p ∈ paras text, c = trim p) ∨
    ∃ p ∈ paras text, ∃ s ∈ sents p, c = s ∨ c = trim (s ++ sSep)

/-- Size discipline of an emitted segment: within one character of the
configured maximum (the slack comes from a re-appended sentence period), or
one of the documented single-paragraph/single-sentence overflow exceptions. -/
def chunkOK (text : List Char) (maxSize : Nat) (c : List Char) : Prop :=
  c.length ≤ maxSize + 1 ∨ chunkException text c

/-- Invariant of the accumulation buffer of `splitTextIntoChunks`: its
trimmed form is within one character of the maximum, or it holds exactly one
paragraph (line 204 of the source), or exactly one sentence plus `". "`
(line 212 of the source). -/
def chunkBufOK (text : List Char) (maxSize : Nat) (cc : List Char) : Prop :=
  (trim cc).length ≤ maxSize + 1 ∨ cc ∈ paras text ∨
    ∃ p ∈ paras text, ∃ s ∈ sents p, cc = s ++ sSep

/-- Size discipline of a line produced by `wrapText`: within the character
budget, or a single word of the input (emitted verbatim at line 249 of the
source, or trimmed when flushed from a buffer seeded at line 247) that alone
exceeds the budget. -/
def lineOK (text : List Char) (maxChars : Int) (line : List Char) : Prop :=
  (line.length : Int) ≤ maxChars ∨
    ∃ w ∈ splitOnChar ' ' text, (line = w ∨ line = trim w) ∧
      maxChars < (w.length : Int)

/-- Invariant of the accumulation buffer of `wrapText`: empty, trimmed form
within the budget, or exactly one word plus a trailing space. -/
def wrapBufOK (text : List Char) (maxChars : Int) (cc : List Char) : Prop :=
  cc = [] ∨ ((trim cc).length : Int) ≤ maxChars ∨
    ∃ w ∈ splitOnChar ' ' text, cc = w ++ [' ']

instance chunkExceptionDec (t c : List Char) : Decidable (chunkException t c) := by
  unfold chunkException
  exact inferInstance

/-! ### Basic facts about the string model -/

theorem splitOn2_ne_nil (a b : Char) (l : List Char) : splitOn2 a b l ≠ [] := by
  induction l using splitOn2.induct a b with
  | case1 => simp [splitOn2]
  | case2 c => simp [splitOn2]
  | case3 c d rest hab ih => simp [splitOn2, hab]
  | case4 c d rest hab ih => simp [splitOn2, if_neg hab]

/-- Splitting is lossless: re-joining the pieces with the separator gives
back the original string (exactly as for JavaScript `split`/`join`). -/
theorem splitOn2_join (a b : Char) (l : List Char) :
    joinSep [a, b] (splitOn2 a b l) = l := by
  induction l using splitOn2.induct a b with
  | case1 => simp [splitOn2, joinSep]
  | case2 c => simp [splitOn2, joinSep]
  | case3 c d rest hab ih =>
    obtain ⟨rfl, rfl⟩ := hab
    cases h : splitOn2 c d rest with
    | nil => exact absurd h (splitOn2_ne_nil c d rest)
    | cons x xs =>
      rw [h] at ih
      simp [splitOn2, h, joinSep, ih]
  | case4 c d rest hab ih =>
    simp only [splitOn2, if_neg hab]
    cases h : splitOn2 a b (d :: rest) with
    | nil => exact absurd h (splitOn2_ne_nil a b (d :: rest))
    | cons x xs =>
      rw [h] at ih
      cases xs with
      | nil => simpa [joinSep] using ih
      | cons y ys =>
        simp only [List.headD, List.tail, joinSep] at ih ⊢
        rw [← ih]
        simp [joinSep]

theorem strip_nil : strip [] = [] := rfl

theorem strip_append (a b : List Char) : strip (a ++ b) = strip a ++ strip b := by
  simp [strip]

theorem strip_dropWhileWS (l : List Char) :
    strip (l.dropWhile isWS) = strip l := by
  induction l with
  | nil => rfl
  | cons c cs ih =>
    by_cases h : isWS c = true <;> simp [List.dropWhile, strip, h] at ih ⊢ <;>
      simpa [strip] using ih

theorem strip_reverse (l : List Char) : strip l.reverse = (strip l).reverse := by
  simp [strip, List.filter_reverse]

/-- Trimming only removes whitespace: the non-whitespace content is kept. -/
theorem strip_trim (l : List Char) : strip (trim l) = strip l := by
  unfold trim
  rw [strip_dropWhileWS, strip_reverse, strip_dropWhileWS, strip_reverse,
    List.reverse_reverse]

theorem length_dropWhileWS_le (l : List Char) :
    (l.dropWhile isWS).length ≤ l.length := by
  induction l with
  | nil => simp
  | cons c cs ih =>
    by_cases h : isWS c = true <;> simp [List.dropWhile, h] <;> omega

theorem trim_length_le (l : List Char) : (trim l).length ≤ l.length := by
  unfold trim
  calc (List.dropWhile isWS ((List.dropWhile isWS l.reverse).reverse)).length
      ≤ ((List.dropWhile isWS l.reverse).reverse).length :=
        length_dropWhileWS_le _
    _ = (List.dropWhile isWS l.reverse).length := List.length_reverse _
    _ ≤ l.reverse.length := length_dropWhileWS_le _
    _ = l.length := List.length_reverse _

/-- A trailing whitespace character is irrelevant to trimming. -/
theorem trim_append_ws (l : List Char) (c : Char) (h : isWS c = true) :
    trim (l ++ [c]) = trim l := by
  unfold trim
  rw [List.reverse_append]
  simp [List.dropWhile, h]

theorem strip_pSep : strip pSep = [] := by decide

/-- Joining with an all-whitespace separator: the non-whitespace content is
the concatenation of the pieces' non-whitespace contents. -/
theorem strip_joinSep (sep : List Char) (hsep : strip sep = [])
    (ps : List (List Char)) :
    strip (joinSep sep ps) = (ps.map strip).flatten := by
  induction ps using joinSep.induct sep with
  | case1 => simp [joinSep, strip]
  | case2 x => simp [joinSep]
  | case3 x y ys ih =>
    simp only [joinSep, List.map, List.flatten, strip_append, hsep] at ih ⊢
    simp [ih]

/-- The non-whitespace content of a text is the concatenation of its
paragraphs' non-whitespace contents. -/
theorem strip_paras (text : List Char) :
    ((paras text).map strip).flatten = strip text := by
  rw [paras, ← strip_joinSep pSep strip_pSep, pSep, splitOn2_join]

/-! ### Claim 3: segmentation preserves non-whitespace content -/

/-- Loop invariant of the paragraph loop of `splitTextIntoChunks`: as long as
no paragraph overflows `m` (so the sentence-splitting fallback is never
entered), each iteration only moves characters between the buffer and the
emitted segments, adding the paragraph's non-whitespace content. -/
theorem chunks_strip_inv (m : Nat) (ps : List (List Char)) :
    ∀ st : List (List Char) × List Char, (∀ p ∈ ps, p.length ≤ m) →
    strip ((ps.foldl (paragraphStep m) st).1.flatten ++
        (ps.foldl (paragraphStep m) st).2)
      = strip (st.1.flatten ++ st.2) ++ (ps.map strip).flatten := by
  induction ps with
  | nil => intro st h; simp
  | cons p ps ih =>
    intro st h
    have hp : p.length ≤ m := h p (List.mem_cons_self _ _)
    rw [List.foldl_cons,
      ih _ (fun q hq => h q (List.mem_cons_of_mem _ hq))]
    have hstep : strip ((paragraphStep m st p).1.flatten ++
        (paragraphStep m st p).2) = strip (st.1.flatten ++ st.2) ++ strip p := by
      unfold paragraphStep
      by_cases h1 : st.2.length + p.length > m
      · by_cases h2 : st.2.length > 0
        · simp [h1, h2, strip_append, strip_trim, List.flatten_append]
        · omega
      · simp [h1, strip_append, strip_pSep]
    rw [hstep]
    simp [strip_append]

/-- Claim C3, amended: for every text and every `maxSize > 0` such that no
paragraph of the text is longer than `maxSize` (so the sentence-splitting
fallback of `splitTextIntoChunks` is never entered), concatenating the
returned segments reproduces exactly the non-whitespace characters of the
input, in order — segmentation then never inserts, deletes or alters any
non-whitespace character.  (When a paragraph does exceed `maxSize`, the
fallback re-appends a period to every sentence piece and can insert `'.'`
characters that were not in the input — see the counterexample.) -/
theorem c3_lossless_amended (text : List Char) (maxSize : Nat)
    (hpos : 0 < maxSize)
    (hpar : ∀ p ∈ paras text, p.length ≤ maxSize) :
    strip (splitTextIntoChunks text maxSize).flatten = strip text := by
  unfold splitTextIntoChunks
  have hinv := chunks_strip_inv maxSize (paras text) ([], []) hpar
  rw [strip_paras] at hinv
  simp only [List.flatten_nil, List.nil_append, List.append_nil, strip_nil]
    at hinv
  set st := (paras text).foldl (paragraphStep maxSize) ([], []) with hst
  rw [paras] at hst
  rw [← hst]
  by_cases h2 : st.2.length > 0
  · simp only [if_pos h2, List.flatten_append]
    rw [strip_append] at hinv ⊢
    simpa [strip_append, strip_trim] using hinv
  · have hnil : st.2 = [] := by
      cases hn : st.2 with
      | nil => rfl
      | cons c cs => rw [hn] at h2; simp at h2
    rw [if_neg h2]
    rw [hnil] at hinv
    simpa using hinv

/-- Claim C3 as stated is false: at `text = "a. b"` and `maxSize = 1 > 0` the
sentence fallback fires and `splitTextIntoChunks` returns `["a.", "b."]`,
whose concatenation has non-whitespace content `"a.b."` — a period has been
inserted that is not in the input (`"a.b"`). -/
theorem c3_lossless_counterexample :
    0 < 1 ∧
    splitTextIntoChunks "a. b".toList 1 = ["a.".toList, "b.".toList] ∧
    strip (splitTextIntoChunks "a. b".toList 1).flatten ≠ strip "a. b".toList := by
  refine ⟨by decide, by decide, by decide⟩

/-- Witness for `c3_lossless_amended` at the concrete input
`text = "ab\n\ncd"`, `maxSize = 5000`. -/
theorem c3_lossless_amended_witness :
    strip (splitTextIntoChunks "ab\n\ncd".toList 5000).flatten
      = strip "ab\n\ncd".toList :=
  c3_lossless_amended "ab\n\ncd".toList 5000 (by decide) (by decide)

/-! ### Claim 4: segment size bound -/

theorem trim_append_sSep_le (l : List Char) :
    (trim (l ++ sSep)).length ≤ l.length + 1 := by
  have h : l ++ sSep = (l ++ ['.']) ++ [' '] := by simp [sSep]
  rw [h, trim_append_ws _ ' ' (by decide)]
  calc (trim (l ++ ['.'])).length ≤ (l ++ ['.']).length := trim_length_le _
    _ = l.length + 1 := by simp

theorem trim_append_pSep_le (l : List Char) :
    (trim (l ++ pSep)).length ≤ l.length := by
  have h : l ++ pSep = ((l ++ ['\n']) ++ ['\n']) := by simp [pSep]
  rw [h, trim_append_ws _ '\n' (by decide), trim_append_ws _ '\n' (by decide)]
  exact trim_length_le _

/-- Flushing the accumulation buffer always yields an acceptable segment. -/
theorem chunk_flush_ok (text : List Char) (m : Nat) (cc : List Char)
    (h : chunkBufOK text m cc) : chunkOK text m (trim cc) := by
  rcases h with h | h | ⟨p, hp, s, hs, rfl⟩
  · exact Or.inl h
  · exact Or.inr (Or.inl ⟨cc, h, rfl⟩)
  · exact Or.inr (Or.inr ⟨p, hp, s, hs, Or.inr rfl⟩)

/-- Loop invariant of the sentence-splitting fallback of
`splitTextIntoChunks`. -/
theorem sentence_fold_ok (text : List Char) (m : Nat) (ss : List (List Char))
    (hss : ∀ s ∈ ss, ∃ p ∈ paras text, s ∈ sents p) :
    ∀ st : List (List Char) × List Char,
    (∀ c ∈ st.1, chunkOK text m c) → chunkBufOK text m st.2 →
    (∀ c ∈ (ss.foldl (sentenceStep m) st).1, chunkOK text m c) ∧
      chunkBufOK text m (ss.foldl (sentenceStep m) st).2 := by
  induction ss with
  | nil => intro st h1 h2; exact ⟨h1, h2⟩
  | cons s ss ih =>
    intro st h1 h2
    obtain ⟨p, hp, hsp⟩ := hss s (List.mem_cons_self _ _)
    rw [List.foldl_cons]
    refine ih (fun q hq => hss q (List.mem_cons_of_mem _ hq)) _ ?_ ?_
    · intro c hc
      unfold sentenceStep at hc
      by_cases hov : st.2.length + s.length > m
      · by_cases hne : st.2.length > 0
        · simp only [if_pos hov, if_pos hne] at hc
          rcases List.mem_append.mp hc with hc | hc
          · exact h1 c hc
          · rw [List.mem_singleton.mp hc]
            exact chunk_flush_ok text m st.2 h2
        · simp only [if_pos hov, if_neg hne] at hc
          rcases List.mem_append.mp hc with hc | hc
          · exact h1 c hc
          · rw [List.mem_singleton.mp hc]
            exact Or.inr (Or.inr ⟨p, hp, s, hsp, Or.inl rfl⟩)
      · simp only [if_neg hov] at hc
        exact h1 c hc
    · unfold sentenceStep
      by_cases hov : st.2.length + s.length > m
      · by_cases hne : st.2.length > 0
        · simp only [if_pos hov, if_pos hne]
          exact Or.inr (Or.inr ⟨p, hp, s, hsp, rfl⟩)
        · simp only [if_pos hov, if_neg hne]
          exact h2
      · simp only [if_neg hov]
        left
        have hb : st.2 ++ s ++ sSep = (st.2 ++ s) ++ sSep := by
          simp
        rw [hb]
        calc (trim ((st.2 ++ s) ++ sSep)).length
            ≤ (st.2 ++ s).length + 1 := trim_append_sSep_le _
          _ = st.2.length + s.length + 1 := by simp
          _ ≤ m + 1 := by omega

/-- Loop invariant of the paragraph loop of `splitTextIntoChunks`. -/
theorem paragraph_fold_ok (text : List Char) (m : Nat) (ps : List (List Char))
    (hps : ∀ p ∈ ps, p ∈ paras text) :
    ∀ st : List (List Char) × List Char,
    (∀ c ∈ st.1, chunkOK text m c) → chunkBufOK text m st.2 →
    (∀ c ∈ (ps.foldl (paragraphStep m) st).1, chunkOK text m c) ∧
      chunkBufOK text m (ps.foldl (paragraphStep m) st).2 := by
  induction ps with
  | nil => intro st h1 h2; exact ⟨h1, h2⟩
  | cons p ps ih =>
    intro st h1 h2
    have hp : p ∈ paras text := hps p (List.mem_cons_self _ _)
    rw [List.foldl_cons]
    refine ih (fun q hq => hps q (List.mem_cons_of_mem _ hq)) _ ?_ ?_ <;>
      unfold paragraphStep <;>
      by_cases hov : st.2.length + p.length > m
    · by_cases hne : st.2.length > 0
      · simp only [if_pos hov, if_pos hne]
        intro c hc
        rcases List.mem_append.mp hc with hc | hc
        · exact h1 c hc
        · rw [List.mem_singleton.mp hc]
          exact chunk_flush_ok text m st.2 h2
      · simp only [if_pos hov, if_neg hne]
        exact (sentence_fold_ok text m (sents p)
          (fun s hs => ⟨p, hp, hs⟩) st h1 h2).1
    · simp only [if_neg hov]
      exact h1
    · by_cases hne : st.2.length > 0
      · simp only [if_pos hov, if_pos hne]
        exact Or.inr (Or.inl hp)
      · simp only [if_pos hov, if_neg hne]
        exact (sentence_fold_ok text m (sents p)
          (fun s hs => ⟨p, hp, hs⟩) st h1 h2).2
    · simp only [if_neg hov]
      left
      have hb : st.2 ++ p ++ pSep = (st.2 ++ p) ++ pSep := by simp
      rw [hb]
      calc (trim ((st.2 ++ p) ++ pSep)).length
          ≤ (st.2 ++ p).length := trim_append_pSep_le _
        _ = st.2.length + p.length := by simp
        _ ≤ m + 1 := by omega

/-- Claim C4, amended: every segment `splitTextIntoChunks` emits has length
at most `maxSize + 1` — one more than the claimed bound `maxSize`, the extra
character being a period the sentence fallback re-appends — except a segment
that is a single (trimmed) paragraph, or a single sentence (emitted verbatim
or with `". "` re-appended and trimmed), which may alone exceed this bound. -/
theorem c4_segment_bound_amended (text : List Char) (maxSize : Nat)
    (c : List Char) (hc : c ∈ splitTextIntoChunks text maxSize) :
    c.length ≤ maxSize + 1 ∨ chunkException text c := by
  have h := paragraph_fold_ok text maxSize (paras text) (fun p hp => hp)
    ([], []) (by intro c hc; simp at hc) (Or.inl (by simp [trim]))
  unfold splitTextIntoChunks at hc
  rw [show splitOn2 '\n' '\n' text = paras text from rfl] at hc
  set st := (paras text).foldl (paragraphStep maxSize) ([], []) with hst
  by_cases h2 : st.2.length > 0
  · rw [if_pos h2] at hc
    rcases List.mem_append.mp hc with hc | hc
    · exact h.1 c hc
    · rw [List.mem_singleton.mp hc]
      exact chunk_flush_ok text maxSize st.2 h.2
  · rw [if_neg h2] at hc
    exact h.1 c hc

/-- Claim C4 as stated is false: at `text = "aaaaa. x. y"` and `maxSize = 4`
the segmenter returns `["aaaaa", "x. y."]`, and the segment `"x. y."` has
length `5 > 4` yet is neither a single paragraph nor a single sentence of the
input — it is two sentences joined with re-appended periods. -/
theorem c4_segment_bound_counterexample :
    splitTextIntoChunks "aaaaa. x. y".toList 4
        = ["aaaaa".toList, "x. y.".toList] ∧
      ¬ ∀ c ∈ splitTextIntoChunks "aaaaa. x. y".toList 4,
          c.length ≤ 4 ∨ chunkException "aaaaa. x. y".toList c := by
  refine ⟨by decide, by decide⟩

/-- Witness for `c4_segment_bound_amended` at the concrete input
`text = "aaaaa. x. y"`, `maxSize = 4`, segment `"x. y."`. -/
theorem c4_segment_bound_amended_witness :
    "x. y.".toList.length ≤ 4 + 1 ∨
      chunkException "aaaaa. x. y".toList "x. y.".toList :=
  c4_segment_bound_amended "aaaaa. x. y".toList 4 "x. y.".toList (by decide)

/-! ### Claim 5: segmenting the empty string -/

/-- Claim C5, amended: segmenting the empty string does NOT yield the empty
sequence — for every `maxChunkSize` it yields exactly one segment, and that
segment is the empty string (`"".split("\n\n")` gives `[""]`, the loop
appends `"" + "\n\n"` to the buffer, and the final flush trims `"\n\n"` to
`""`).  In particular not every emitted segment is non-empty. -/
theorem c5_empty_amended (maxChunkSize : Nat) :
    splitTextIntoChunks [] maxChunkSize = [[]] := by
  unfold splitTextIntoChunks
  rw [show splitOn2 '\n' '\n' ([] : List Char) = [[]] from rfl]
  simp only [List.foldl_cons, List.foldl_nil]
  unfold paragraphStep
  simp only [List.length_nil, Nat.add_zero]
  rw [if_neg (by omega : ¬ 0 + 0 > maxChunkSize)]
  decide

/-- Claim C5 as stated is false at the concrete input: segmenting `""` with
`maxSize = 5000` yields the non-empty sequence `[""]`, which moreover
contains an empty segment. -/
theorem c5_empty_counterexample :
    splitTextIntoChunks [] 5000 = [[]] ∧
      splitTextIntoChunks [] 5000 ≠ [] ∧
      [] ∈ splitTextIntoChunks [] 5000 := by
  refine ⟨by decide, by decide, by decide⟩

/-! ### Claim 7: pagination draws every line exactly once -/

/-- Each iteration of the page-filling loop draws exactly one line: either
on the first page or on a freshly allocated overflow page. -/
theorem paginate_count (lines : List (List Char)) :
    ∀ st : LayoutState,
    (lines.foldl drawStep st).firstPage.length +
        (((lines.foldl drawStep st).overflowPages.map List.length).sum)
      = st.firstPage.length + ((st.overflowPages.map List.length).sum)
          + lines.length := by
  induction lines with
  | nil => intro st; simp
  | cons l ls ih =>
    intro st
    rw [List.foldl_cons, ih]
    unfold drawStep
    by_cases h : st.yPos < marginH + 2000
    · simp [h]
      omega
    · simp [h]
      omega

/-- Claim C7: the total number of body lines drawn across all pages equals
the number of input lines (none dropped, none duplicated), and at least one
page exists even for an empty line sequence (the source allocates `page`
before the loop). -/
theorem c7_pagination_preserves_lines (lines : List (List Char)) :
    ((paginate lines).pages.map List.length).sum = lines.length ∧
      0 < (paginate lines).pages.length := by
  constructor
  · have h := paginate_count lines
      { firstPage := [], overflowPages := [], yPos := pageHeightH - marginH - 4000 }
    simp only [List.length_nil, List.map_nil, List.sum_nil] at h
    simp only [paginate, LayoutState.pages, List.map_cons, List.sum_cons]
    omega
  · simp [LayoutState.pages]

/-! ### Claim 8: line length budget of the wrapper -/

/-- Flushing a non-empty line buffer always yields an acceptable line. -/
theorem wrap_flush_ok (text : List Char) (m : Int) (cc : List Char)
    (h : wrapBufOK text m cc) (hne : 0 < cc.length) :
    lineOK text m (trim cc) := by
  rcases h with rfl | h | ⟨w, hw, rfl⟩
  · simp at hne
  · exact Or.inl h
  · rw [show w ++ [' '] = w ++ [' '] from rfl,
      trim_append_ws w ' ' (by decide)]
    by_cases hlen : ((trim w).length : Int) ≤ m
    · exact Or.inl hlen
    · refine Or.inr ⟨w, hw, Or.inr rfl, ?_⟩
      have hle := trim_length_le w
      omega

/-- Loop invariant of the word loop of `wrapText`. -/
theorem wrap_fold_ok (text : List Char) (m : Int) (ws : List (List Char))
    (hws : ∀ w ∈ ws, w ∈ splitOnChar ' ' text) :
    ∀ st : List (List Char) × List Char,
    (∀ line ∈ st.1, lineOK text m line) → wrapBufOK text m st.2 →
    (∀ line ∈ (ws.foldl (wrapStep m) st).1, lineOK text m line) ∧
      wrapBufOK text m (ws.foldl (wrapStep m) st).2 := by
  induction ws with
  | nil => intro st h1 h2; exact ⟨h1, h2⟩
  | cons w ws ih =>
    intro st h1 h2
    have hw : w ∈ splitOnChar ' ' text := hws w (List.mem_cons_self _ _)
    rw [List.foldl_cons]
    refine ih (fun q hq => hws q (List.mem_cons_of_mem _ hq)) _ ?_ ?_ <;>
      unfold wrapStep <;>
      by_cases hov : ((st.2 ++ w).length : Int) > m
    · by_cases hne : st.2.length > 0
      · simp only [if_pos hov, if_pos hne]
        intro line hl
        rcases List.mem_append.mp hl with hl | hl
        · exact h1 line hl
        · rw [List.mem_singleton.mp hl]
          exact wrap_flush_ok text m st.2 h2 hne
      · simp only [if_pos hov, if_neg hne]
        intro line hl
        rcases List.mem_append.mp hl with hl | hl
        · exact h1 line hl
        · rw [List.mem_singleton.mp hl]
          refine Or.inr ⟨w, hw, Or.inl rfl, ?_⟩
          have hz : st.2.length = 0 := by omega
          rw [List.length_append, hz] at hov
          omega
    · simp only [if_neg hov]
      exact h1
    · by_cases hne : st.2.length > 0
      · simp only [if_pos hov, if_pos hne]
        exact Or.inr (Or.inr ⟨w, hw, rfl⟩)
      · simp only [if_pos hov, if_neg hne]
        exact h2
    · simp only [if_neg hov]
      right; left
      have hb : st.2 ++ w ++ [' '] = (st.2 ++ w) ++ [' '] := by simp
      rw [hb, trim_append_ws _ ' ' (by decide)]
      have hle := trim_length_le (st.2 ++ w)
      omega

/-- Claim C8: every line produced by `wrapText` is within the character
budget `floor(maxWidth / (fontSize * 0.6))`, except a line consisting of a
single word of the text (emitted unbroken, possibly with surrounding
whitespace trimmed) that alone exceeds the budget. -/
theorem c8_line_budget (text : List Char) (maxWidth fontSize : ℚ)
    (line : List Char) (hl : line ∈ wrapText text maxWidth fontSize) :
    (line.length : Int) ≤ maxCharsPerLine maxWidth fontSize ∨
      ∃ w ∈ splitOnChar ' ' text, (line = w ∨ line = trim w) ∧
        maxCharsPerLine maxWidth fontSize < (w.length : Int) := by
  have h := wrap_fold_ok text (maxCharsPerLine maxWidth fontSize)
    (splitOnChar ' ' text) (fun w hw => hw) ([], [])
    (by intro line hl'; simp at hl') (Or.inl rfl)
  unfold wrapText wrapLines at hl
  set st := (splitOnChar ' ' text).foldl
    (wrapStep (maxCharsPerLine maxWidth fontSize)) ([], []) with hst
  by_cases h2 : st.2.length > 0
  · rw [if_pos h2] at hl
    rcases List.mem_append.mp hl with hl | hl
    · exact h.1 line hl
    · rw [List.mem_singleton.mp hl]
      exact wrap_flush_ok text _ st.2 h.2 h2
  · rw [if_neg h2] at hl
    exact h.1 line hl

theorem maxCharsPerLine_zero : maxCharsPerLine 0 0 = 0 := by
  simp [maxCharsPerLine]

/-- Witness for `c8_line_budget` at the concrete input `text = "ab"`,
`maxWidth = 0`, `fontSize = 0` (budget 0; the single word `"ab"` exceeds it
and is emitted unbroken). -/
theorem c8_line_budget_witness :
    (("ab".toList.length : Int) ≤ maxCharsPerLine 0 0 ∨
      ∃ w ∈ splitOnChar ' ' "ab".toList,
        ("ab".toList = w ∨ "ab".toList = trim w) ∧
          maxCharsPerLine 0 0 < (w.length : Int)) :=
  c8_line_budget "ab".toList 0 0 "ab".toList (by
    show "ab".toList ∈ wrapLines "ab".toList (maxCharsPerLine 0 0)
    rw [maxCharsPerLine_zero]
    decide)

/-! ### The extraction stage always passes the 20-character check -/

theorem ndaText_toList_ne_nil : ndaText.toList ≠ [] := by decide

theorem fallbackText_toList_ne_nil : fallbackText.toList ≠ [] := by decide

theorem ndaNorm_take20 :
    ((trim (squashWS ndaText.toList)).take 20).length = 20 := by decide

theorem fallbackNorm_take20 :
    ((trim (squashWS fallbackText.toList)).take 20).length = 20 := by decide

theorem long_of_take20 (l : List Char) (h : (l.take 20).length = 20) :
    ¬(l = [] ∨ l.length < 20) := by
  rw [List.length_take] at h
  intro hor
  have hlen : l.length < 20 := by
    rcases hor with rfl | h'
    · simp
    · exact h'
  rw [min_eq_right (Nat.le_of_lt hlen)] at h
  omega

theorem extractedText_of_ok (load : List Nat → LoadResult) (bs : List Nat)
    (n : Nat) (h : load bs = LoadResult.ok n) :
    extractedText load bs = trim (squashWS ndaText.toList) := by
  unfold extractedText extractedTextRaw
  rw [h]
  exact if_pos ndaText_toList_ne_nil

theorem extractedText_of_fail (load : List Nat → LoadResult) (bs : List Nat)
    (h : load bs = LoadResult.fail) :
    extractedText load bs = trim (squashWS fallbackText.toList) := by
  unfold extractedText extractedTextRaw
  rw [h]
  exact if_pos fallbackText_toList_ne_nil

/-- Whatever the loader does, the hardcoded "extracted" text always passes
the emptiness/minimum-length check of the handler. -/
theorem extractedText_long (load : List Nat → LoadResult) (bs : List Nat) :
    ¬(extractedText load bs = [] ∨ (extractedText load bs).length < 20) := by
  cases h : load bs with
  | ok n =>
    rw [extractedText_of_ok load bs n h]
    exact long_of_take20 _ ndaNorm_take20
  | fail =>
    rw [extractedText_of_fail load bs h]
    exact long_of_take20 _ fallbackNorm_take20

/-! ### Claim 9: order preservation and abort-on-first-failure -/

theorem translateChunks_ok (tr : List Char → Except Unit (List Char)) :
    ∀ (chunks outs : List (List Char)),
    translateChunks tr chunks = Except.ok outs →
    List.Forall₂ (fun c t => tr c = Except.ok t) chunks outs := by
  intro chunks
  induction chunks with
  | nil =>
    intro outs h
    unfold translateChunks at h
    cases h
    exact List.Forall₂.nil
  | cons c cs ih =>
    intro outs h
    unfold translateChunks at h
    cases htr : tr c with
    | error e => rw [htr] at h; exact absurd h (by simp)
    | ok t =>
      rw [htr] at h
      cases hrec : translateChunks tr cs with
      | error e => rw [hrec] at h; exact absurd h (by simp)
      | ok ts =>
        rw [hrec] at h
        cases h
        exact List.Forall₂.cons htr (ih ts hrec)

theorem translateChunks_error (tr : List Char → Except Unit (List Char)) :
    ∀ (chunks : List (List Char)) (e : Unit),
    translateChunks tr chunks = Except.error e →
    ∃ pre c suf, chunks = pre ++ c :: suf ∧
      (∀ c' ∈ pre, ∃ t, tr c' = Except.ok t) ∧ tr c = Except.error e := by
  intro chunks
  induction chunks with
  | nil =>
    intro e h
    unfold translateChunks at h
    exact absurd h (by simp)
  | cons c cs ih =>
    intro e h
    unfold translateChunks at h
    cases htr : tr c with
    | error e' =>
      rw [htr] at h
      cases h
      exact ⟨[], c, cs, rfl, by simp, htr⟩
    | ok t =>
      rw [htr] at h
      cases hrec : translateChunks tr cs with
      | error e' =>
        rw [hrec] at h
        cases h
        obtain ⟨pre, c', suf, rfl, hpre, hc'⟩ := ih e' hrec
        refine ⟨c :: pre, c', suf, rfl, ?_, hc'⟩
        intro q hq
        rcases List.mem_cons.mp hq with rfl | hq
        · exact ⟨t, htr⟩
        · exact hpre q hq
      | ok ts =>
        rw [hrec] at h
        exact absurd h (by simp)

/-- Claim C9: on the success path the translated segments correspond
one-to-one, in order, to the input segments (`Forall₂`); when any segment's
translation fails, the loop stops at the first failing segment (every
segment before it translated successfully), the handler's response is the
500 "Translation failed" JSON error, and no PDF bytes are produced (a PDF
response implies every translation call succeeded). -/
theorem c9_translation_order_and_abort
    (tr : List Char → Except Unit (List Char)) (chunks : List (List Char))
    (body : Option (List Nat)) (apiKey : Option (List Char))
    (load : List Nat → LoadResult) :
    (∀ outs, translateChunks tr chunks = Except.ok outs →
      List.Forall₂ (fun c t => tr c = Except.ok t) chunks outs) ∧
    (∀ e, translateChunks tr chunks = Except.error e →
      ∃ pre c suf, chunks = pre ++ c :: suf ∧
        (∀ c' ∈ pre, ∃ t, tr c' = Except.ok t) ∧ tr c = Except.error e) ∧
    (∀ st, handleTranslatePdf body apiKey load tr = Response.pdf st →
      ∃ outs, translateChunks tr (textsSent load (body.getD []))
        = Except.ok outs) ∧
    (¬(body = none ∨ body = some []) → ¬(apiKey = none ∨ apiKey = some []) →
      translateChunks tr (textsSent load (body.getD [])) = Except.error () →
      handleTranslatePdf body apiKey load tr
        = Response.json 500 false translationFailedMsg) := by
  refine ⟨translateChunks_ok tr chunks, translateChunks_error tr chunks,
    ?_, ?_⟩
  · intro st h
    unfold handleTranslatePdf at h
    by_cases hb : body = none ∨ body = some []
    · rw [if_pos hb] at h; exact absurd h (by simp)
    · rw [if_neg hb] at h
      by_cases hk : apiKey = none ∨ apiKey = some []
      · rw [if_pos hk] at h; exact absurd h (by simp)
      · rw [if_neg hk, if_neg (extractedText_long load (body.getD []))] at h
        cases htc : translateChunks tr (textsSent load (body.getD [])) with
        | error e => rw [htc] at h; exact absurd h (by simp)
        | ok ts => exact ⟨ts, rfl⟩
  · intro hb hk htc
    unfold handleTranslatePdf
    rw [if_neg hb, if_neg hk,
      if_neg (extractedText_long load (body.getD [])), htc]

/-- Witness for `c9_translation_order_and_abort`: its success clause applied
to the identity translator on the single segment `["a"]`. -/
theorem c9_translation_order_and_abort_witness :
    List.Forall₂ (fun c t => trId c = Except.ok t) [['a']] [['a']] :=
  (c9_translation_order_and_abort trId [['a']] none none loadAlwaysOk).1
    [['a']] rfl

/-! ### Claim 2: the upload's content cannot influence the translated text -/

/-- Claim C2: for any two non-empty uploads that both parse under the PDF
loader, the handler hands the translation client the identical sequence of
texts — the chunks of the fixed hardcoded constant — so the uploaded bytes
influence the outcome only through parse success or failure. -/
theorem c2_translation_input_independent_of_upload
    (load : List Nat → LoadResult) (b1 b2 : List Nat) (n1 n2 : Nat)
    (h1 : load b1 = LoadResult.ok n1) (h2 : load b2 = LoadResult.ok n2)
    (hb1 : b1 ≠ []) (hb2 : b2 ≠ []) :
    textsSent load b1 = textsSent load b2 ∧
      textsSent load b1
        = splitTextIntoChunks (trim (squashWS ndaText.toList)) 5000 := by
  have e1 := extractedText_of_ok load b1 n1 h1
  have e2 := extractedText_of_ok load b2 n2 h2
  constructor
  · unfold textsSent
    rw [e1, e2]
  · unfold textsSent
    rw [e1]

/-- Witness for `c2_translation_input_independent_of_upload` at two distinct
concrete non-empty uploads under a loader that parses everything. -/
theorem c2_translation_input_independent_of_upload_witness :
    textsSent loadAlwaysOk [1] = textsSent loadAlwaysOk [2, 3] ∧
      textsSent loadAlwaysOk [1]
        = splitTextIntoChunks (trim (squashWS ndaText.toList)) 5000 :=
  c2_translation_input_independent_of_upload loadAlwaysOk [1] [2, 3] 1 1
    rfl rfl (by decide) (by decide)

/-! ### Claim 10: the empty-body check comes first -/

/-- Claim C10: an absent or empty request body yields the 400
`"No PDF data provided in request body"` JSON error, for every credential
state (`apiKey` is universally quantified: the check precedes the credential
check) and every loader/translator behaviour. -/
theorem c10_empty_body_rejected_first (body : Option (List Nat))
    (apiKey : Option (List Char)) (load : List Nat → LoadResult)
    (tr : List Char → Except Unit (List Char))
    (h : body = none ∨ body = some []) :
    handleTranslatePdf body apiKey load tr
      = Response.json 400 false "No PDF data provided in request body" := by
  unfold handleTranslatePdf
  rw [if_pos h]
  rfl

/-- Witness for `c10_empty_body_rejected_first`: absent body with the
credential NOT configured still yields the empty-body error, not the
credential error. -/
theorem c10_empty_body_rejected_first_witness :
    handleTranslatePdf none none loadAlwaysOk trId
      = Response.json 400 false "No PDF data provided in request body" :=
  c10_empty_body_rejected_first none none loadAlwaysOk trId (Or.inl rfl)

/-! ### Claim 1: extraction failure is papered over with canned text -/

/-- Claim C1 describes required behaviour the code does not have: on a
request whose bytes fail to parse (`load` throws), the handler does NOT
return the 400 extraction error — it silently substitutes the hardcoded
fallback document, sends its chunks (a non-empty list of fabricated text) to
the translation client, and answers with a generated PDF. -/
theorem c1_extraction_fallback_code_bug :
    (handleTranslatePdf (some [0]) (some ['k']) loadAlwaysFail trId).isPdf
        = true ∧
      handleTranslatePdf (some [0]) (some ['k']) loadAlwaysFail trId
          ≠ Response.json 400 false extractionErrorMsg ∧
      textsSent loadAlwaysFail [0]
          = splitTextIntoChunks (trim (squashWS fallbackText.toList)) 5000 ∧
      textsSent loadAlwaysFail [0] ≠ [] := by
  refine ⟨by decide, by decide, ?_, by decide⟩
  unfold textsSent
  rw [extractedText_of_fail loadAlwaysFail [0] rfl]

/-! ### Claim 6: page overflow loses the current-page reference -/

/-- Claim C6 describes required behaviour the code does not have.  With 45
input lines (44 `"x"` lines followed by one `"z"` line) the cursor first
falls below the threshold at line 44: a new page is allocated and line 44 is
drawn on it, but the following line `"z"` is drawn back on the FIRST page
(which ends up holding 44 lines, the last of them `"z"`), because the source
never updates the `page` reference used by the non-overflow branch.  The
newly allocated page keeps exactly one line instead of receiving all
subsequent lines. -/
theorem c6_overflow_page_not_current :
    (paginate (List.replicate 44 ['x'] ++ [['z']])).overflowPages
        = [[['x']]] ∧
      (paginate (List.replicate 44 ['x'] ++ [['z']])).firstPage.length = 44 ∧
      (paginate (List.replicate 44 ['x'] ++ [['z']])).firstPage.getLast?
        = some ['z'] := by
  refine ⟨by decide, by decide, by decide⟩

end PdfTranslate
